import Mathlib

/-!
Verification of the DynamoDB access layer in src/index.ts (class DatabaseService).

The embedding is shallow:
* a JavaScript object is an association list of attribute name / value pairs,
  in property-insertion order, with unique keys (JS objects cannot hold a key
  twice); property read, `in`-test, assignment and spread are modelled by
  `getA`, `hasA`, `setA` and `spreadInto`;
* attribute values are flat (string / number / boolean / null / undefined);
  no claim concerns nested values;
* effectful calls (Date.now(), uuid(), docClient.send) are modelled by explicit
  parameters: each Date.now() result, each generated uuid and each store
  response is an argument of the embedded function, indexed by call position
  where a loop makes several calls;
* a rejected promise / thrown error is an `Except.error`.
-/

set_option autoImplicit false

namespace DynamoNinja

universe u

/-- An attribute value of a stored record. `vUndef` models the JavaScript
value `undefined`, `vNull` models `null`; both can sit inside an object
(`{id: undefined}` has the key present). -/
inductive Value where
  | vStr (s : String)
  | vNum (n : Int)
  | vBool (b : Bool)
  | vNull
  | vUndef
  deriving DecidableEq, Repr

/-- A JavaScript object with values of type α: attribute name / value pairs in
property-insertion order.  Objects coming from callers have pairwise distinct
keys (`NodupKeys`). -/
abbrev AList (α : Type u) : Type u := List (String × α)

/-- A stored record / Item. -/
abbrev Rec : Type := AList Value

/-- Property read `r[k]`: first entry with key `k`, if any. -/
def getA {α : Type u} (r : AList α) (k : String) : Option α :=
  (r.find? (fun p => p.1 == k)).map Prod.snd

/-- The `in` operator: is key `k` present? -/
def hasA {α : Type u} (r : AList α) (k : String) : Bool :=
  (getA r k).isSome

/-- Property assignment `r[k] = v`: overwrite in place if the key exists
(keeping its position, as JS does), otherwise append the new property. -/
def setA {α : Type u} : AList α → String → α → AList α
  | [], k, v => [(k, v)]
  | p :: rest, k, v => if p.1 = k then (k, v) :: rest else p :: setA rest k v

/-- The keys of an object, in order. -/
def keysOf {α : Type u} (r : AList α) : List String :=
  r.map Prod.fst

/-- The object has pairwise distinct keys (true of every JS object). -/
def NodupKeys {α : Type u} (r : AList α) : Prop :=
  (keysOf r).Nodup

instance {α : Type u} (r : AList α) : Decidable (NodupKeys r) := by
  unfold NodupKeys; infer_instance

/-- Object spread `{ ...base, ...data }`: the properties of `data` written
over `base`, in order. -/
def spreadInto {α : Type u} (base : AList α) (data : AList α) : AList α :=
  data.foldl (fun acc kv => setA acc kv.1 kv.2) base

section AListLemmas

variable {α : Type u}

theorem getA_nil (k : String) : getA ([] : AList α) k = none := rfl

theorem keysOf_nil : keysOf ([] : AList α) = [] := rfl

theorem keysOf_cons (p : String × α) (rest : AList α) :
    keysOf (p :: rest) = p.1 :: keysOf rest := rfl

theorem getA_cons (p : String × α) (rest : AList α) (k : String) :
    getA (p :: rest) k = if p.1 = k then some p.2 else getA rest k := by
  by_cases h : p.1 = k <;> simp [getA, List.find?_cons, h]

theorem getA_setA_self (r : AList α) (k : String) (v : α) :
    getA (setA r k v) k = some v := by
  induction r with
  | nil => simp [setA, getA_cons]
  | cons p rest ih =>
    by_cases h : p.1 = k
    · simp [setA, h, getA_cons]
    · simp [setA, h, getA_cons, ih]

theorem getA_setA_ne (r : AList α) (k k' : String) (v : α) (h : k' ≠ k) :
    getA (setA r k v) k' = getA r k' := by
  have hk : ¬(k = k') := fun he => h he.symm
  induction r with
  | nil => simp [setA, getA_cons, getA_nil, hk]
  | cons p rest ih =>
    by_cases hp : p.1 = k
    · subst hp
      have hp' : ¬(p.1 = k') := hk
      simp [setA, getA_cons, hk, hp']
    · simp [setA, hp, getA_cons, ih]

theorem keysOf_setA (r : AList α) (k : String) (v : α) :
    keysOf (setA r k v) =
      if k ∈ keysOf r then keysOf r else keysOf r ++ [k] := by
  induction r with
  | nil => simp [setA, keysOf_cons, keysOf_nil]
  | cons p rest ih =>
    by_cases hp : p.1 = k
    · subst hp
      simp [setA, keysOf_cons]
    · have hne : ¬(k = p.1) := fun he => hp he.symm
      simp only [setA, if_neg hp, keysOf_cons, ih]
      by_cases hm : k ∈ keysOf rest
      · simp [hm]
      · simp [hm, hne]

theorem nodupKeys_setA (r : AList α) (k : String) (v : α) (h : NodupKeys r) :
    NodupKeys (setA r k v) := by
  unfold NodupKeys at *
  rw [keysOf_setA]
  by_cases hm : k ∈ keysOf r
  · rw [if_pos hm]; exact h
  · rw [if_neg hm]
    simp [List.nodup_append, h, hm]

theorem getA_none_iff_not_mem (r : AList α) (k : String) :
    getA r k = none ↔ k ∉ keysOf r := by
  induction r with
  | nil => simp [getA_nil, keysOf_nil]
  | cons p rest ih =>
    by_cases hp : p.1 = k
    · simp [getA_cons, hp, keysOf_cons]
    · have hne : ¬(k = p.1) := fun he => hp he.symm
      simp [getA_cons, hp, keysOf_cons, hne, ih]

theorem setA_of_not_mem (r : AList α) (k : String) (v : α) (h : k ∉ keysOf r) :
    setA r k v = r ++ [(k, v)] := by
  induction r with
  | nil => simp [setA]
  | cons p rest ih =>
    rw [keysOf_cons, List.mem_cons] at h
    push_neg at h
    have hp : ¬(p.1 = k) := fun he => h.1 he.symm
    simp [setA, hp, ih h.2]

theorem spreadInto_nil (base : AList α) : spreadInto base [] = base := rfl

theorem spreadInto_cons (base : AList α) (kv : String × α) (rest : AList α) :
    spreadInto base (kv :: rest) = spreadInto (setA base kv.1 kv.2) rest := rfl

theorem getA_spreadInto_of_none (base data : AList α) (k : String)
    (h : getA data k = none) :
    getA (spreadInto base data) k = getA base k := by
  induction data generalizing base with
  | nil => rfl
  | cons kv rest ih =>
    rw [getA_cons] at h
    by_cases hk : kv.1 = k
    · rw [if_pos hk] at h; exact absurd h (by simp)
    · rw [if_neg hk] at h
      rw [spreadInto_cons, ih _ h,
        getA_setA_ne base kv.1 k kv.2 (fun he => hk he.symm)]

theorem getA_spreadInto_of_some (base data : AList α) (k : String) (v : α)
    (hnd : NodupKeys data) (h : getA data k = some v) :
    getA (spreadInto base data) k = some v := by
  induction data generalizing base with
  | nil => exact absurd h (by simp [getA_nil])
  | cons kv rest ih =>
    rw [NodupKeys, keysOf_cons, List.nodup_cons] at hnd
    rw [getA_cons] at h
    by_cases hk : kv.1 = k
    · rw [if_pos hk] at h
      have hkr : k ∉ keysOf rest := by rw [← hk]; exact hnd.1
      rw [spreadInto_cons,
        getA_spreadInto_of_none _ _ _ ((getA_none_iff_not_mem rest k).mpr hkr),
        hk, getA_setA_self]
      exact h
    · rw [if_neg hk] at h
      rw [spreadInto_cons]
      exact ih _ hnd.2 h

theorem foldl_setA_eq_append (f : String → String)
    (hf : ∀ a b : String, f a = f b → a = b) :
    ∀ (ls : List (String × α)) (init : AList α),
      (∀ kv ∈ ls, f kv.1 ∉ keysOf init) →
      (ls.map Prod.fst).Nodup →
      ls.foldl (fun acc kv => setA acc (f kv.1) kv.2) init =
        init ++ ls.map (fun kv => (f kv.1, kv.2)) := by
  intro ls
  induction ls with
  | nil => intro init _ _; simp
  | cons kv rest ih =>
    intro init hfresh hnd
    rw [List.map_cons, List.nodup_cons] at hnd
    have h1 : f kv.1 ∉ keysOf init := hfresh kv (by simp)
    have hfresh2 : ∀ kv' ∈ rest, f kv'.1 ∉ keysOf (init ++ [(f kv.1, kv.2)]) := by
      intro kv' hkv'
      have hne : kv'.1 ≠ kv.1 := by
        intro he
        apply hnd.1
        rw [← he]
        exact List.mem_map_of_mem Prod.fst hkv'
      have hkeys : keysOf (init ++ [(f kv.1, kv.2)]) = keysOf init ++ [f kv.1] := by
        simp [keysOf]
      rw [hkeys, List.mem_append]
      push_neg
      refine ⟨hfresh kv' (List.mem_cons_of_mem _ hkv'), ?_⟩
      simp only [List.mem_singleton]
      intro he
      exact hne (hf _ _ he)
    rw [List.foldl_cons, setA_of_not_mem _ _ _ h1, ih _ hfresh2 hnd.2]
    simp

theorem string_append_left_cancel (a b c : String) (h : a ++ b = a ++ c) :
    b = c := by
  have hd : (a ++ b).data = (a ++ c).data := congrArg String.data h
  simp only [String.data_append] at hd
  have hbc := List.append_cancel_left hd
  cases b; cases c
  exact congrArg String.mk hbc

end AListLemmas

/-! ## Error taxonomy

`getItem` throws `new Error(ErrorMessage.NOT_FOUND)` for the recognized
not-found cases and rethrows the original store error otherwise.  Modelled
from the spec: the `ErrorMessage` enum file
(src/constants/enums/error.message/errorMessage) is not under src/, so the
domain error is represented as a two-constructor taxonomy — the distinguished
`NotFound` signal and a pass-through `ProviderError` carrying the original
store error message. -/
inductive DbError where
  | notFound
  | provider (msg : String)
  deriving DecidableEq, Repr

/-- The store-error message string that `getItem` recognizes as not-found:
`error.message === 'Requested resource not found'`. -/
def notFoundMsg : String := "Requested resource not found"

/-! ## getItem (src/index.ts lines 27-44) -/

/-- The store's reply to a GetCommand: `response.Item` may be undefined. -/
structure GetResponse where
  item : Option Rec
  deriving DecidableEq, Repr

/-- getItem: `storeResult` is the settled promise of `docClient.send` —
`.error msg` a rejection whose `error.message` is `msg`, `.ok` a response.
A rejection with the recognized message, or a response without an Item,
becomes the domain NotFound error; any other rejection is rethrown. -/
def getItem (storeResult : Except String GetResponse) : Except DbError Rec :=
  match storeResult with
  | .error e => if e = notFoundMsg then .error .notFound else .error (.provider e)
  | .ok resp =>
    match resp.item with
    | none => .error .notFound
    | some it => .ok it

/-! ## batchGetItems (src/index.ts lines 46-62) -/

/-- The Keys array of the single BatchGetCommand:
`params.ids.map((id) => ({ id: id }))` — one key object per identifier,
keyed on the fixed attribute name "id". -/
def batchGetRequestKeys (ids : List String) : List Rec :=
  ids.map (fun s => [("id", Value.vStr s)])

/-- The bulk-fetch calls batchGetItems issues: a single BatchGetCommand
carrying all the keys (the source never chunks this path). -/
def batchGetCalls (ids : List String) : List (List Rec) :=
  [batchGetRequestKeys ids]

/-- batchGetItems' result: the source does not catch errors (a store failure
propagates unchanged) and returns `response?.Responses?.[params.table] ?? []`.
`storeResult`'s `.ok none` models a response without a Responses entry for
the table. -/
def batchGetItems (storeResult : Except String (Option (List Rec))) :
    Except DbError (List Rec) :=
  match storeResult with
  | .error e => .error (.provider e)
  | .ok resp => .ok (resp.getD [])

/-! ## listItemsByIndex (src/index.ts lines 64-94) -/

/-- The query condition: KeyConditionExpression ANDing one equality test per
attribute of `params.values`, and the `:key`-aliased ExpressionAttributeValues.
The source iterates Object.keys and reads `params.values[key]`; for an object
(unique keys) that is the fold over the entries below. -/
def listItemsRequest (values : AList String) : String × AList String :=
  (String.intercalate " AND "
      ((values.map Prod.fst).map (fun k => k ++ " = :" ++ k)),
    values.foldl (fun acc kv => setA acc (":" ++ kv.1) kv.2) [])

/-- listItemsByIndex's response handling: `.ok none` models a reply whose
`Items` field is undefined (then `response?.length === 0` is false and
`response ?? []` is returned); `.ok (some l)` a reply with Items `l`.
A length-0 Items list raises NOT_FOUND; otherwise the store's list is
returned as is. -/
def listItemsByIndex (storeResult : Except String (Option (List Rec))) :
    Except DbError (List Rec) :=
  match storeResult with
  | .error e => .error (.provider e)
  | .ok mitems =>
    match mitems with
    | none => .ok []
    | some l => if l.length = 0 then .error .notFound else .ok l

/-! ## Item enrichment (src/index.ts lines 238-245, 266-274) -/

/-- generateID: spread-copy the record, and if `id` is absent, undefined or
null, attach the freshly generated uuid `uuidVal` (the result of `uuid()`,
an external v4 generator). -/
def generateID (uuidVal : String) (data : Rec) : Rec :=
  if hasA data "id" = false ∨ getA data "id" = some Value.vUndef
      ∨ getA data "id" = some Value.vNull then
    setA data "id" (Value.vStr uuidVal)
  else
    data

/-- addTimestamps: spread-copy the record, then
`item['createdAt'] = Date.now(); item['updatedAt'] = Date.now()`.
`t1` and `t2` are the results of the first and second Date.now() call,
in that order (two separate clock reads). -/
def addTimestamps (t1 t2 : Int) (data : Rec) : Rec :=
  setA (setA data "createdAt" (Value.vNum t1)) "updatedAt" (Value.vNum t2)

/-! ## createItem (src/index.ts lines 96-113) -/

/-- createItem: the enriched Item — `addTimestamps(generateID(data))` — which
is both what the PutCommand writes and what the method returns (no store
round-trip re-read). -/
def createItem (uuidVal : String) (t1 t2 : Int) (data : Rec) : Rec :=
  addTimestamps t1 t2 (generateID uuidVal data)

/-! ## Chunkers (src/index.ts lines 256-264 and 284-291)

The source carries two duplicate chunkers, createBatches (used by
batchCreateItems) and createBatch (used by addItems); each loops
`for (i = 0; i < items.length; i += batchSize)` pushing
`items.slice(i, i + batchSize)`.  Both are always called with batchSize 25.
The Lean definitions compute that loop for any batchSize ≥ 1 (`slice(i, i+bs)`
of a list starting with x is `x :: take (bs-1) rest`); at batchSize 0 the
JS loop would not terminate, a case the source never exercises. -/
def createBatches {α : Type u} : List α → Nat → List (List α)
  | [], _ => []
  | x :: rest, bs => (x :: rest.take (bs - 1)) :: createBatches (rest.drop (bs - 1)) bs
termination_by l _ => l.length
decreasing_by simp [List.length_drop]; omega

/-- The duplicate chunker used by addItems; same loop as createBatches. -/
def createBatch {α : Type u} : List α → Nat → List (List α)
  | [], _ => []
  | x :: rest, bs => (x :: rest.take (bs - 1)) :: createBatch (rest.drop (bs - 1)) bs
termination_by l _ => l.length
decreasing_by simp [List.length_drop]; omega

/-! ## batchCreateItems (src/index.ts lines 115-150) -/

/-- One record's enrichment inside batchCreateItems' map:
`this.addTimestamps(this.generateID(item))`, with that record's own uuid and
its own pair of Date.now() reads. -/
def enrichItem (uuidVal : String) (t1 t2 : Int) (r : Rec) : Rec :=
  addTimestamps t1 t2 (generateID uuidVal r)

/-- Per-record loop body applied along a list, where record number `i`
(counting from the start of the whole input, across chunks) receives the
effect results indexed `i`. -/
def mapIdx (f : Nat → Rec → Rec) : Nat → List Rec → List Rec
  | _, [] => []
  | i, r :: rs => f i r :: mapIdx f (i + 1) rs

/-- The per-chunk loop: each chunk's records are mapped with their global
input positions (chunks are processed sequentially, in order). -/
def mapIdxChunks (f : Nat → Rec → Rec) : Nat → List (List Rec) → List (List Rec)
  | _, [] => []
  | i, c :: cs => mapIdx f i c :: mapIdxChunks f (i + c.length) cs

/-- batchCreateItems' pure content: chunk the input into batches of 25,
enrich every record of every chunk independently (`uuidAt i` the uuid
generated for input record `i`, `t1At i`/`t2At i` its two Date.now() reads).
First component: the PutRequest item lists of the successive BatchWriteCommand
calls, in order.  Second component: the accumulated `response` array the
method returns — each enriched record pushed in processing order. -/
def batchCreateItems (uuidAt : Nat → String) (t1At t2At : Nat → Int)
    (items : List Rec) : List (List Rec) × List Rec :=
  (mapIdxChunks (fun i r => enrichItem (uuidAt i) (t1At i) (t2At i) r) 0
      (createBatches items 25),
   (mapIdxChunks (fun i r => enrichItem (uuidAt i) (t1At i) (t2At i) r) 0
      (createBatches items 25)).flatten)

/-- The sequential await loop over the chunks' BatchWriteCommand calls.
`res j` is the store's settled result for call number `j` (counting from
`k`).  Returns (calls issued, calls that succeeded — i.e. chunks written,
first error if any).  On a rejection the loop throws at once: the failing
call is issued but not written, and no later call is made. -/
def runBatchWrites (res : Nat → Except String Unit) :
    Nat → List (List Rec) → List (List Rec) × List (List Rec) × Option String
  | _, [] => ([], [], none)
  | k, c :: cs =>
    match res k with
    | .error e => ([c], [], some e)
    | .ok _ =>
      let rest := runBatchWrites res (k + 1) cs
      (c :: rest.1, c :: rest.2.1, rest.2.2)

/-- batchCreateItems run against the store: the write trace plus the
method's outcome — the full enriched response list on success, the
underlying error of the first failing chunk otherwise. -/
def batchCreateItemsRun (uuidAt : Nat → String) (t1At t2At : Nat → Int)
    (res : Nat → Except String Unit) (items : List Rec) :
    List (List Rec) × List (List Rec) × Except String (List Rec) :=
  ((runBatchWrites res 0 (batchCreateItems uuidAt t1At t2At items).1).1,
   (runBatchWrites res 0 (batchCreateItems uuidAt t1At t2At items).1).2.1,
   match (runBatchWrites res 0 (batchCreateItems uuidAt t1At t2At items).1).2.2 with
   | some e => .error e
   | none => .ok (batchCreateItems uuidAt t1At t2At items).2)

/-! ## updateItem (src/index.ts lines 152-189, 247-253) -/

/-- modifyUpdatedAtTimestamp: spread-copy, then
`item['updatedAt'] = Date.now()` — the caller's updatedAt, if any, is
overwritten. -/
def modifyUpdatedAtTimestamp (t : Int) (data : Rec) : Rec :=
  setA data "updatedAt" (Value.vNum t)

/-- The parts of the UpdateCommand that updateItem builds. -/
structure UpdateCommandModel where
  updateExpression : String
  expressionAttributeNames : AList String
  expressionAttributeValues : Rec
  deriving DecidableEq, Repr

/-- updateItem's command construction: refresh updatedAt, then over
Object.keys of the data build `set #k = :k, ...`, the `#k ↦ k` name aliases
and the `:k ↦ value` value aliases.  The source iterates Object.keys and
reads `params.data[key]`; for an object (unique keys) the values fold below
over the entries is that iteration. -/
def updateItemCommand (t : Int) (data : Rec) : UpdateCommandModel :=
  let d := modifyUpdatedAtTimestamp t data
  { updateExpression :=
      "set " ++ String.intercalate ", "
        ((d.map Prod.fst).map (fun k => "#" ++ k ++ " = :" ++ k))
    expressionAttributeNames :=
      (d.map Prod.fst).foldl (fun acc k => setA acc ("#" ++ k) k) []
    expressionAttributeValues :=
      d.foldl (fun acc kv => setA acc (":" ++ kv.1) kv.2) [] }

/-! ## Append path: addCreatedAt, addItems, addItem
(src/index.ts lines 191-236, 276-282) -/

/-- addCreatedAt: `{ createdAt: iso1, updatedAt: iso2, ...data }` where
`iso1`, `iso2` are the results of the two `new Date().toISOString()` calls —
ISO-8601 strings, and the caller's record is spread after them, so its own
attributes win. -/
def addCreatedAt (iso1 iso2 : String) (data : Rec) : Rec :=
  spreadInto [("createdAt", Value.vStr iso1), ("updatedAt", Value.vStr iso2)] data

/-- addItems: chunk into batches of 25 (via the duplicate chunker
createBatch) and for each chunk build one BatchWriteCommand whose PutRequest
items are `this.addCreatedAt(movie)`; `isoAt i` is the pair of toISOString()
results for input record `i`.  The method's return value is void: the caller
observes nothing beyond the writes, so the model returns the per-call item
lists together with the Unit return. -/
def addItems (isoAt : Nat → String × String) (items : List Rec) :
    List (List Rec) × Unit :=
  (mapIdxChunks (fun i r => addCreatedAt (isoAt i).1 (isoAt i).2 r) 0
      (createBatch items 25), ())

/-- addItem: unless `excludeCreatedAt` is passed and true, stamp via
addCreatedAt; put the item; return void.  First component: the Item the
PutCommand writes; second: the void return. -/
def addItem (iso1 iso2 : String) (excludeCreatedAt : Option Bool)
    (data : Rec) : Rec × Unit :=
  let excl := excludeCreatedAt.getD false
  (if excl then data else addCreatedAt iso1 iso2 data, ())

/-- Does the record carry a non-empty id — present, not null, not undefined,
and not the empty string? -/
def nonEmptyId (r : Rec) : Bool :=
  match getA r "id" with
  | some (Value.vStr s) => s ≠ ""
  | some Value.vNull => false
  | some Value.vUndef => false
  | some _ => true
  | none => false

/-! ## Lemmas about the chunkers and loop bodies -/

section LoopLemmas

variable {α : Type u}

theorem createBatches_flatten (l : List α) (bs : Nat) :
    (createBatches l bs).flatten = l := by
  induction l, bs using createBatches.induct with
  | case1 bs => simp [createBatches]
  | case2 x rest bs ih =>
    rw [createBatches]
    rw [List.flatten_cons, ih]
    simp [List.take_append_drop]

theorem createBatches_length_eq :
    ∀ (l : List α) (bs : Nat), bs = 25 →
      (createBatches l bs).length = (l.length + 24) / 25 := by
  intro l bs
  induction l, bs using createBatches.induct with
  | case1 bs => intro _; simp [createBatches]
  | case2 x rest bs ih =>
    intro hbs
    subst hbs
    rw [createBatches]
    have h1 := ih rfl
    simp only [List.length_cons, List.length_drop] at h1 ⊢
    omega

theorem createBatches_sizes :
    ∀ (l : List α) (bs : Nat), bs = 25 →
      ∀ c ∈ createBatches l bs, c.length ≤ 25 := by
  intro l bs
  induction l, bs using createBatches.induct with
  | case1 bs =>
    intro _ c hc
    simp [createBatches] at hc
  | case2 x rest bs ih =>
    intro hbs c hc
    subst hbs
    rw [createBatches, List.mem_cons] at hc
    cases hc with
    | inl h =>
      subst h
      have h2 : (rest.take (25 - 1)).length ≤ 25 - 1 := List.length_take_le _ _
      simp only [List.length_cons]
      omega
    | inr h => exact ih rfl c h

theorem createBatch_eq : ∀ (l : List α) (bs : Nat),
    createBatch l bs = createBatches l bs := by
  intro l bs
  induction l, bs using createBatch.induct with
  | case1 bs => simp [createBatch, createBatches]
  | case2 x rest bs ih => rw [createBatch, createBatches, ih]

theorem mapIdx_length (f : Nat → Rec → Rec) :
    ∀ (i : Nat) (l : List Rec), (mapIdx f i l).length = l.length := by
  intro i l
  induction l generalizing i with
  | nil => rfl
  | cons r rs ih => simp [mapIdx, ih]

theorem mapIdx_append (f : Nat → Rec → Rec) :
    ∀ (a b : List Rec) (i : Nat),
      mapIdx f i (a ++ b) = mapIdx f i a ++ mapIdx f (i + a.length) b := by
  intro a
  induction a with
  | nil => intro b i; simp [mapIdx]
  | cons r rs ih =>
    intro b i
    rw [List.cons_append, mapIdx, mapIdx, ih, List.length_cons, List.cons_append]
    have hi : i + 1 + rs.length = i + (rs.length + 1) := by omega
    rw [hi]

theorem mapIdx_getElem (f : Nat → Rec → Rec) :
    ∀ (l : List Rec) (i j : Nat),
      (mapIdx f i l)[j]? = (l[j]?).map (f (i + j)) := by
  intro l
  induction l with
  | nil => intro i j; simp [mapIdx]
  | cons r rs ih =>
    intro i j
    cases j with
    | zero => simp [mapIdx]
    | succ j =>
      rw [mapIdx, List.getElem?_cons_succ, List.getElem?_cons_succ, ih]
      have hi : i + 1 + j = i + (j + 1) := by omega
      rw [hi]

theorem mapIdxChunks_flatten (f : Nat → Rec → Rec) :
    ∀ (cs : List (List Rec)) (i : Nat),
      (mapIdxChunks f i cs).flatten = mapIdx f i cs.flatten := by
  intro cs
  induction cs with
  | nil => intro i; rfl
  | cons c rest ih =>
    intro i
    rw [mapIdxChunks, List.flatten_cons, ih, List.flatten_cons, mapIdx_append]

theorem mapIdxChunks_map_length (f : Nat → Rec → Rec) :
    ∀ (cs : List (List Rec)) (i : Nat),
      (mapIdxChunks f i cs).map List.length = cs.map List.length := by
  intro cs
  induction cs with
  | nil => intro i; rfl
  | cons c rest ih =>
    intro i
    simp [mapIdxChunks, mapIdx_length, ih]

theorem mapIdxChunks_length (f : Nat → Rec → Rec) :
    ∀ (cs : List (List Rec)) (i : Nat),
      (mapIdxChunks f i cs).length = cs.length := by
  intro cs
  induction cs with
  | nil => intro i; rfl
  | cons c rest ih => intro i; simp [mapIdxChunks, ih]

theorem runBatchWrites_fail (res : Nat → Except String Unit) (e : String) :
    ∀ (cs : List (List Rec)) (start m : Nat),
      m < cs.length →
      (∀ j, j < m → res (start + j) = .ok ()) →
      res (start + m) = .error e →
      runBatchWrites res start cs = (cs.take (m + 1), cs.take m, some e) := by
  intro cs
  induction cs with
  | nil =>
    intro start m hm _ _
    simp at hm
  | cons c rest ih =>
    intro start m hm hok hfail
    cases m with
    | zero =>
      rw [Nat.add_zero] at hfail
      simp [runBatchWrites, hfail]
    | succ m =>
      have h0 : res start = .ok () := by
        have h := hok 0 (by omega)
        rwa [Nat.add_zero] at h
      have hrest := ih (start + 1) m
        (by simpa using Nat.lt_of_succ_lt_succ hm)
        (fun j hj => by
          have h := hok (j + 1) (by omega)
          have hj2 : start + (j + 1) = start + 1 + j := by omega
          rwa [hj2] at h)
        (by
          have hm2 : start + (m + 1) = start + 1 + m := by omega
          rwa [hm2] at hfail)
      simp [runBatchWrites, h0, hrest, List.take_succ_cons]

end LoopLemmas

/-! ## Lemmas about the enrichment pipeline -/

theorem getA_generateID_ne (u : String) (data : Rec) (k : String)
    (h : k ≠ "id") :
    getA (generateID u data) k = getA data k := by
  unfold generateID
  split
  · exact getA_setA_ne _ _ _ _ h
  · rfl

theorem getA_enrichItem_createdAt (u : String) (t1 t2 : Int) (r : Rec) :
    getA (enrichItem u t1 t2 r) "createdAt" = some (Value.vNum t1) := by
  unfold enrichItem addTimestamps
  rw [getA_setA_ne _ _ _ _ (by decide), getA_setA_self]

theorem getA_enrichItem_updatedAt (u : String) (t1 t2 : Int) (r : Rec) :
    getA (enrichItem u t1 t2 r) "updatedAt" = some (Value.vNum t2) := by
  unfold enrichItem addTimestamps
  rw [getA_setA_self]

theorem getA_enrichItem_id (u : String) (t1 t2 : Int) (r : Rec) :
    getA (enrichItem u t1 t2 r) "id" = getA (generateID u r) "id" := by
  unfold enrichItem addTimestamps
  rw [getA_setA_ne _ _ _ _ (by decide), getA_setA_ne _ _ _ _ (by decide)]

theorem batchCreate_calls_length (uuidAt : Nat → String) (t1At t2At : Nat → Int)
    (items : List Rec) :
    (batchCreateItems uuidAt t1At t2At items).1.length = (items.length + 24) / 25 := by
  unfold batchCreateItems
  rw [mapIdxChunks_length, createBatches_length_eq items 25 rfl]

theorem batchCreate_req_sizes (uuidAt : Nat → String) (t1At t2At : Nat → Int)
    (items : List Rec) (c : List Rec)
    (hc : c ∈ (batchCreateItems uuidAt t1At t2At items).1) :
    c.length ≤ 25 := by
  unfold batchCreateItems at hc
  have hmem : c.length ∈ (createBatches items 25).map List.length := by
    rw [← mapIdxChunks_map_length
      (fun i r => enrichItem (uuidAt i) (t1At i) (t2At i) r) (createBatches items 25) 0]
    exact List.mem_map_of_mem List.length hc
  rcases List.mem_map.mp hmem with ⟨c', hc', hlen⟩
  rw [← hlen]
  exact createBatches_sizes items 25 rfl c' hc'

theorem batchCreate_response_eq (uuidAt : Nat → String) (t1At t2At : Nat → Int)
    (items : List Rec) :
    (batchCreateItems uuidAt t1At t2At items).2 =
      mapIdx (fun i r => enrichItem (uuidAt i) (t1At i) (t2At i) r) 0 items := by
  unfold batchCreateItems
  rw [mapIdxChunks_flatten, createBatches_flatten]

/-! ## The claims -/

/-- C1: for every input list of N records, batchCreateItems issues exactly
⌈N/25⌉ underlying bulk-write calls (in Nat arithmetic, (N + 24) / 25), each
call carries at most 25 records, and the returned list has exactly N
records in the same order as the input: the j-th returned record is the
enrichment of the j-th input record, with no reordering across chunks. -/
theorem C1_batchCreate_chunking (uuidAt : Nat → String) (t1At t2At : Nat → Int)
    (items : List Rec) :
    (batchCreateItems uuidAt t1At t2At items).1.length = (items.length + 24) / 25
    ∧ (∀ j : Nat,
        (((batchCreateItems uuidAt t1At t2At items).1[j]?).getD []).length ≤ 25)
    ∧ (batchCreateItems uuidAt t1At t2At items).2.length = items.length
    ∧ (∀ j : Nat, ((batchCreateItems uuidAt t1At t2At items).2)[j]? =
        (items[j]?).map (fun r => enrichItem (uuidAt j) (t1At j) (t2At j) r)) := by
  refine ⟨batchCreate_calls_length uuidAt t1At t2At items, ?_, ?_, ?_⟩
  · intro j
    cases hj : (batchCreateItems uuidAt t1At t2At items).1[j]? with
    | none => simp
    | some c =>
      simp only [Option.getD_some]
      exact batchCreate_req_sizes uuidAt t1At t2At items c (List.getElem?_mem hj)
  · rw [batchCreate_response_eq, mapIdx_length]
  · intro j
    rw [batchCreate_response_eq, mapIdx_getElem]
    simp

/-- C2 counterexample: addTimestamps performs two separate Date.now() calls
(one for createdAt, one for updatedAt); when the clock advances between the
two reads (first read 0, second read 1) the created Item carries
createdAt = 0 but updatedAt = 1, refuting the claim that both always equal
the same stamping instant. -/
theorem C2_timestamps_counterexample :
    getA (createItem "u" 0 1 []) "createdAt" = some (Value.vNum 0)
    ∧ getA (createItem "u" 0 1 []) "updatedAt" = some (Value.vNum 1)
    ∧ getA (createItem "u" 0 1 []) "createdAt" ≠
        getA (createItem "u" 0 1 []) "updatedAt" := by
  refine ⟨by decide, by decide, by decide⟩

/-- C2 amended: createdAt is set from the first Date.now() read and
updatedAt from the second, both as integer epoch milliseconds; whenever the
two consecutive reads return the same millisecond — the code does not force
this, but the reads are adjacent — createdAt equals updatedAt, both in
createItem and for every record created by batchCreateItems. -/
theorem C2_timestamps_amended (u : String) (t t1 t2 : Int) (data : Rec)
    (uuidAt : Nat → String) (tAt : Nat → Int) (items : List Rec) (j : Nat) :
    getA (addTimestamps t1 t2 data) "createdAt" = some (Value.vNum t1)
    ∧ getA (addTimestamps t1 t2 data) "updatedAt" = some (Value.vNum t2)
    ∧ getA (createItem u t t data) "createdAt" = some (Value.vNum t)
    ∧ getA (createItem u t t data) "createdAt" =
        getA (createItem u t t data) "updatedAt"
    ∧ ((batchCreateItems uuidAt tAt tAt items).2[j]?).map
          (fun r => getA r "createdAt") =
        ((batchCreateItems uuidAt tAt tAt items).2[j]?).map
          (fun r => getA r "updatedAt") := by
  refine ⟨?_, ?_, ?_, ?_, ?_⟩
  · unfold addTimestamps
    rw [getA_setA_ne _ _ _ _ (by decide), getA_setA_self]
  · unfold addTimestamps
    rw [getA_setA_self]
  · exact getA_enrichItem_createdAt u t t data
  · show getA (enrichItem u t t data) "createdAt" =
        getA (enrichItem u t t data) "updatedAt"
    rw [getA_enrichItem_createdAt u t t data, getA_enrichItem_updatedAt u t t data]
  · rw [batchCreate_response_eq, mapIdx_getElem]
    cases items[j]? with
    | none => rfl
    | some r =>
      simp [getA_enrichItem_createdAt, getA_enrichItem_updatedAt]

/-- C3 counterexample: createItem regenerates the id only when it is absent,
undefined or null; a caller-supplied empty-string id is preserved, so an
Item returned from create can carry an empty id, refuting the claim's
non-empty-id guarantee. -/
theorem C3_id_counterexample :
    getA (createItem "9b2f" 0 0 [("id", Value.vStr "")]) "id" =
        some (Value.vStr "")
    ∧ nonEmptyId (createItem "9b2f" 0 0 [("id", Value.vStr "")]) = false := by
  refine ⟨by decide, by decide⟩

/-- C3 amended: if the id attribute is absent, null or undefined, the
freshly generated identifier is attached; otherwise the caller-supplied id
value is preserved unchanged, whatever it is. The Item returned from create
therefore has a non-empty id whenever the generated uuid is non-empty
(v4 uuid strings always are) and the caller did not supply the empty
string as id. -/
theorem C3_id_amended (u : String) (t1 t2 : Int) (data : Rec) (hu : u ≠ "") :
    ((getA data "id" = none ∨ getA data "id" = some Value.vUndef
        ∨ getA data "id" = some Value.vNull) →
      getA (createItem u t1 t2 data) "id" = some (Value.vStr u))
    ∧ (∀ v : Value, v ≠ Value.vUndef → v ≠ Value.vNull →
        getA data "id" = some v →
        getA (createItem u t1 t2 data) "id" = some v)
    ∧ (getA data "id" ≠ some (Value.vStr "") →
        nonEmptyId (createItem u t1 t2 data) = true) := by
  have hid : getA (createItem u t1 t2 data) "id" = getA (generateID u data) "id" :=
    getA_enrichItem_id u t1 t2 data
  have hgen : (getA data "id" = none ∨ getA data "id" = some Value.vUndef
      ∨ getA data "id" = some Value.vNull) →
      getA (createItem u t1 t2 data) "id" = some (Value.vStr u) := by
    intro hcond
    rw [hid]
    unfold generateID
    have hc : hasA data "id" = false ∨ getA data "id" = some Value.vUndef
        ∨ getA data "id" = some Value.vNull := by
      rcases hcond with h | h | h
      · left; unfold hasA; rw [h]; rfl
      · right; left; exact h
      · right; right; exact h
    rw [if_pos hc, getA_setA_self]
  have hpres : ∀ v : Value, v ≠ Value.vUndef → v ≠ Value.vNull →
      getA data "id" = some v →
      getA (createItem u t1 t2 data) "id" = some v := by
    intro v hvU hvN hv
    rw [hid]
    unfold generateID
    have hnc : ¬(hasA data "id" = false ∨ getA data "id" = some Value.vUndef
        ∨ getA data "id" = some Value.vNull) := by
      push_neg
      refine ⟨?_, ?_, ?_⟩
      · unfold hasA; rw [hv]; simp
      · rw [hv]; intro he; exact hvU (Option.some.inj he)
      · rw [hv]; intro he; exact hvN (Option.some.inj he)
    rw [if_neg hnc]
    exact hv
  refine ⟨hgen, hpres, ?_⟩
  intro hne
  unfold nonEmptyId
  cases hd : getA data "id" with
  | none =>
    rw [hgen (Or.inl hd)]
    simpa using hu
  | some v =>
    cases v with
    | vStr s =>
      rw [hpres _ (fun h => Value.noConfusion h) (fun h => Value.noConfusion h) hd]
      have hs : s ≠ "" := fun he => hne (by rw [hd, he])
      simpa using hs
    | vNum n =>
      rw [hpres _ (fun h => Value.noConfusion h) (fun h => Value.noConfusion h) hd]
    | vBool b =>
      rw [hpres _ (fun h => Value.noConfusion h) (fun h => Value.noConfusion h) hd]
    | vNull =>
      rw [hgen (Or.inr (Or.inr hd))]
      simpa using hu
    | vUndef =>
      rw [hgen (Or.inr (Or.inl hd))]
      simpa using hu

/-- Witness for C3 amended: a record without an id gets the generated uuid
and ends up with a non-empty id. -/
theorem C3_id_amended_witness :
    ("a1b2" : String) ≠ ""
    ∧ getA ([("name", Value.vStr "Ann")] : Rec) "id" = none
    ∧ getA ([("name", Value.vStr "Ann")] : Rec) "id" ≠ some (Value.vStr "")
    ∧ getA (createItem "a1b2" 3 3 [("name", Value.vStr "Ann")]) "id" =
        some (Value.vStr "a1b2")
    ∧ nonEmptyId (createItem "a1b2" 3 3 [("name", Value.vStr "Ann")]) = true := by
  refine ⟨by decide, by decide, by decide,
    (C3_id_amended "a1b2" 3 3 [("name", Value.vStr "Ann")] (by decide)).1
      (Or.inl (by decide)),
    (C3_id_amended "a1b2" 3 3 [("name", Value.vStr "Ann")] (by decide)).2.2
      (by decide)⟩

/-- C4: getItem signals NotFound exactly when the store reports the
recognized not-found condition or the fetch succeeds but returns no item;
every other store failure is passed through unchanged as a provider error;
on success the stored Item is returned unmodified. -/
theorem C4_getItem_errors :
    (∀ r : Except String GetResponse,
      getItem r = .error .notFound ↔
        r = .error notFoundMsg ∨ r = .ok ⟨none⟩)
    ∧ (∀ msg : String, msg ≠ notFoundMsg →
        getItem (.error msg) = .error (.provider msg))
    ∧ (∀ it : Rec, getItem (.ok ⟨some it⟩) = .ok it) := by
  refine ⟨?_, ?_, ?_⟩
  · intro r
    match r with
    | .error e =>
      unfold getItem
      by_cases he : e = notFoundMsg
      · simp [he]
      · simp [he]
    | .ok ⟨none⟩ => simp [getItem]
    | .ok ⟨some it⟩ => simp [getItem]
  · intro msg h
    simp [getItem, h]
  · intro it
    rfl

/-- Witness for C4 at a concrete unrecognized store failure. -/
theorem C4_getItem_errors_witness :
    ("boom" : String) ≠ notFoundMsg
    ∧ getItem (.error "boom") = .error (.provider "boom") := by
  exact ⟨by decide, C4_getItem_errors.2.1 "boom" (by decide)⟩

/-- C5: listItemsByIndex raises NotFound when the store reports zero
matches, and for K > 0 matches returns exactly the store's match list —
all K items, in the store's order, with no omission, duplication or
client-side reordering. -/
theorem C5_listItemsByIndex_matches :
    (∀ l : List Rec, l.length = 0 →
        listItemsByIndex (.ok (some l)) = .error .notFound)
    ∧ (∀ l : List Rec, 0 < l.length →
        listItemsByIndex (.ok (some l)) = .ok l) := by
  constructor
  · intro l hl
    simp [listItemsByIndex, hl]
  · intro l hl
    simp [listItemsByIndex, Nat.pos_iff_ne_zero.mp hl]

/-- Witness for C5: zero matches raise NotFound, one match is returned
as is. -/
theorem C5_listItemsByIndex_matches_witness :
    ([] : List Rec).length = 0
    ∧ listItemsByIndex (.ok (some [])) = .error .notFound
    ∧ 0 < [([("id", Value.vStr "a")] : Rec)].length
    ∧ listItemsByIndex (.ok (some [[("id", Value.vStr "a")]])) =
        .ok [[("id", Value.vStr "a")]] := by
  refine ⟨rfl, C5_listItemsByIndex_matches.1 [] rfl, by decide,
    C5_listItemsByIndex_matches.2 [[("id", Value.vStr "a")]] (by decide)⟩

/-- C6: updateItem rewrites updatedAt to the current Date.now() read,
overwriting any caller-supplied updatedAt, and builds an update directive
that sets exactly the supplied attributes — the caller's attributes plus
updatedAt — and no others, aliasing each attribute name as #name and each
value as :name. -/
theorem C6_updateItem_command (t : Int) (data : Rec) (hnd : NodupKeys data) :
    getA (modifyUpdatedAtTimestamp t data) "updatedAt" = some (Value.vNum t)
    ∧ keysOf (modifyUpdatedAtTimestamp t data) =
        (if "updatedAt" ∈ keysOf data then keysOf data
         else keysOf data ++ ["updatedAt"])
    ∧ (updateItemCommand t data).expressionAttributeNames =
        (keysOf (modifyUpdatedAtTimestamp t data)).map (fun k => ("#" ++ k, k))
    ∧ (updateItemCommand t data).expressionAttributeValues =
        (modifyUpdatedAtTimestamp t data).map (fun kv => (":" ++ kv.1, kv.2))
    ∧ (updateItemCommand t data).updateExpression =
        "set " ++ String.intercalate ", "
          ((keysOf (modifyUpdatedAtTimestamp t data)).map
            (fun k => "#" ++ k ++ " = :" ++ k)) := by
  have hdnodup : NodupKeys (modifyUpdatedAtTimestamp t data) :=
    nodupKeys_setA data "updatedAt" (Value.vNum t) hnd
  refine ⟨getA_setA_self data "updatedAt" (Value.vNum t),
    keysOf_setA data "updatedAt" (Value.vNum t), ?_, ?_, rfl⟩
  · have hinj : ∀ a b : String, "#" ++ a = "#" ++ b → a = b :=
      fun a b h => string_append_left_cancel "#" a b h
    have hfold := foldl_setA_eq_append (fun k => "#" ++ k) hinj
      ((keysOf (modifyUpdatedAtTimestamp t data)).map (fun k => (k, k))) []
      (by intro kv _; simp [keysOf_nil])
      (by
        rw [List.map_map]
        have hcomp : (Prod.fst ∘ fun k : String => (k, k)) = fun k => k := rfl
        rw [hcomp, List.map_id']
        exact hdnodup)
    rw [List.foldl_map] at hfold
    show (keysOf (modifyUpdatedAtTimestamp t data)).foldl
        (fun acc k => setA acc ("#" ++ k) k) [] = _
    rw [hfold, List.nil_append, List.map_map]
    rfl
  · have hinj : ∀ a b : String, ":" ++ a = ":" ++ b → a = b :=
      fun a b h => string_append_left_cancel ":" a b h
    have hfold := foldl_setA_eq_append (fun k => ":" ++ k) hinj
      (modifyUpdatedAtTimestamp t data) []
      (by intro kv _; simp [keysOf_nil])
      hdnodup
    show (modifyUpdatedAtTimestamp t data).foldl
        (fun acc kv => setA acc (":" ++ kv.1) kv.2) [] = _
    rw [hfold, List.nil_append]

/-- Witness for C6 at the record with the single attribute name = "Bob"
updated at time 7. -/
theorem C6_updateItem_command_witness :
    NodupKeys ([("name", Value.vStr "Bob")] : Rec)
    ∧ getA (modifyUpdatedAtTimestamp 7 [("name", Value.vStr "Bob")]) "updatedAt" =
        some (Value.vNum 7)
    ∧ (updateItemCommand 7 [("name", Value.vStr "Bob")]).updateExpression =
        "set #name = :name, #updatedAt = :updatedAt" := by
  refine ⟨by decide, (C6_updateItem_command 7 [("name", Value.vStr "Bob")] (by decide)).1, ?_⟩
  rw [(C6_updateItem_command 7 [("name", Value.vStr "Bob")] (by decide)).2.2.2.2]
  rfl

/-- C7: if chunk k's bulk-write fails, batchCreateItems raises that
underlying error immediately and unchanged — the failing call is the last
one issued (no retry, no later chunks), and exactly the chunks before k
were written and stay written (no compensation or rollback). -/
theorem C7_batchCreate_failure (uuidAt : Nat → String) (t1At t2At : Nat → Int)
    (res : Nat → Except String Unit) (items : List Rec) (k : Nat) (e : String)
    (hk : k < (batchCreateItems uuidAt t1At t2At items).1.length)
    (hok : ∀ j, j < k → res j = .ok ())
    (hfail : res k = .error e) :
    batchCreateItemsRun uuidAt t1At t2At res items =
      ((batchCreateItems uuidAt t1At t2At items).1.take (k + 1),
       (batchCreateItems uuidAt t1At t2At items).1.take k,
       .error e) := by
  have hrun := runBatchWrites_fail res e
    (batchCreateItems uuidAt t1At t2At items).1 0 k hk
    (fun j hj => by simpa using hok j hj)
    (by simpa using hfail)
  unfold batchCreateItemsRun
  rw [hrun]

/-- Witness for C7: a single-record batch whose only bulk-write fails with
"boom" — nothing written, one call issued, the raw error surfaced. -/
theorem C7_batchCreate_failure_witness :
    0 < (batchCreateItems (fun _ => "u") (fun _ => 0) (fun _ => 0) [[]]).1.length
    ∧ (fun _ : Nat => (Except.error "boom" : Except String Unit)) 0 =
        Except.error "boom"
    ∧ batchCreateItemsRun (fun _ => "u") (fun _ => 0) (fun _ => 0)
        (fun _ => Except.error "boom") [[]] =
      ((batchCreateItems (fun _ => "u") (fun _ => 0) (fun _ => 0) [[]]).1.take 1,
       (batchCreateItems (fun _ => "u") (fun _ => 0) (fun _ => 0) [[]]).1.take 0,
       Except.error "boom") := by
  have hlen : (batchCreateItems (fun _ => "u") (fun _ => (0 : Int))
      (fun _ => (0 : Int)) [[]]).1.length = 1 := by
    rw [batchCreate_calls_length]
    rfl
  refine ⟨by rw [hlen]; decide, rfl, ?_⟩
  exact C7_batchCreate_failure (fun _ => "u") (fun _ => 0) (fun _ => 0)
    (fun _ => Except.error "boom") [[]] 0 "boom"
    (by rw [hlen]; decide)
    (fun j hj => absurd hj (by omega))
    rfl

/-- C8: batchGetItems issues exactly one bulk-fetch request covering all
the identifiers in order (no chunking), keyed on the fixed attribute name
"id"; it returns the list of Items the store reports as found — missing
ids are silently omitted by the store, an absent Responses entry yields [] —
and it never raises NotFound. -/
theorem C8_batchGet_single_call :
    (∀ ids : List String, (batchGetCalls ids).length = 1)
    ∧ (∀ (ids : List String) (j : Nat),
        ((batchGetCalls ids).flatten)[j]? =
          (ids[j]?).map (fun s => [("id", Value.vStr s)]))
    ∧ (∀ sr : Except String (Option (List Rec)),
        batchGetItems sr ≠ .error .notFound)
    ∧ (∀ l : List Rec, batchGetItems (.ok (some l)) = .ok l)
    ∧ batchGetItems (.ok none) = .ok [] := by
  refine ⟨fun ids => rfl, ?_, ?_, fun l => rfl, rfl⟩
  · intro ids j
    simp [batchGetCalls, batchGetRequestKeys, List.getElem?_map]
  · intro sr
    match sr with
    | .error e => simp [batchGetItems]
    | .ok resp => simp [batchGetItems]

/-- C9: in the append path — addItem without the skip flag, and every
record of addItems — no identifier is generated (the id attribute is
exactly the caller's), the generated createdAt/updatedAt stamps are the
toISOString() results, i.e. ISO-8601 strings rather than numeric epoch
milliseconds, and both operations return no value (Unit). -/
theorem C9_append_path (iso1 iso2 : String) (data : Rec) (hnd : NodupKeys data)
    (isoAt : Nat → String × String) (items : List Rec) (j : Nat) :
    (addItem iso1 iso2 none data).1 = addCreatedAt iso1 iso2 data
    ∧ (addItem iso1 iso2 none data).2 = ()
    ∧ (addItems isoAt items).2 = ()
    ∧ ((addItems isoAt items).1.flatten)[j]? =
        (items[j]?).map (fun r => addCreatedAt (isoAt j).1 (isoAt j).2 r)
    ∧ getA (addCreatedAt iso1 iso2 data) "id" = getA data "id"
    ∧ (hasA data "createdAt" = false →
        getA (addCreatedAt iso1 iso2 data) "createdAt" = some (Value.vStr iso1))
    ∧ (hasA data "updatedAt" = false →
        getA (addCreatedAt iso1 iso2 data) "updatedAt" = some (Value.vStr iso2)) := by
  have hasA_false : ∀ (r : Rec) (k : String), hasA r k = false → getA r k = none := by
    intro r k h
    unfold hasA at h
    cases hg : getA r k with
    | none => rfl
    | some v => rw [hg] at h; simp at h
  refine ⟨rfl, rfl, rfl, ?_, ?_, ?_, ?_⟩
  · show ((mapIdxChunks (fun i r => addCreatedAt (isoAt i).1 (isoAt i).2 r) 0
        (createBatch items 25)).flatten)[j]? = _
    rw [createBatch_eq, mapIdxChunks_flatten, createBatches_flatten, mapIdx_getElem]
    simp
  · cases hd : getA data "id" with
    | none =>
      unfold addCreatedAt
      rw [getA_spreadInto_of_none _ _ _ hd]
      simp [getA_cons, getA_nil]
    | some v =>
      unfold addCreatedAt
      rw [getA_spreadInto_of_some _ _ _ _ hnd hd]
  · intro h
    unfold addCreatedAt
    rw [getA_spreadInto_of_none _ _ _ (hasA_false data "createdAt" h)]
    simp [getA_cons]
  · intro h
    unfold addCreatedAt
    rw [getA_spreadInto_of_none _ _ _ (hasA_false data "updatedAt" h)]
    simp [getA_cons, getA_nil]

/-- Witness for C9 at the record with the single attribute name = "Ann". -/
theorem C9_append_path_witness :
    NodupKeys ([("name", Value.vStr "Ann")] : Rec)
    ∧ hasA ([("name", Value.vStr "Ann")] : Rec) "createdAt" = false
    ∧ hasA ([("name", Value.vStr "Ann")] : Rec) "updatedAt" = false
    ∧ (addItem "2024-01-02T03:04:05.678Z" "2024-01-02T03:04:05.678Z" none
        [("name", Value.vStr "Ann")]).1 =
      addCreatedAt "2024-01-02T03:04:05.678Z" "2024-01-02T03:04:05.678Z"
        [("name", Value.vStr "Ann")]
    ∧ getA (addCreatedAt "2024-01-02T03:04:05.678Z" "2024-01-02T03:04:05.678Z"
        [("name", Value.vStr "Ann")]) "createdAt" =
      some (Value.vStr "2024-01-02T03:04:05.678Z") := by
  refine ⟨by decide, by decide, by decide,
    (C9_append_path "2024-01-02T03:04:05.678Z" "2024-01-02T03:04:05.678Z"
      [("name", Value.vStr "Ann")] (by decide) (fun _ => ("", "")) [] 0).1,
    (C9_append_path "2024-01-02T03:04:05.678Z" "2024-01-02T03:04:05.678Z"
      [("name", Value.vStr "Ann")] (by decide) (fun _ => ("", "")) [] 0).2.2.2.2.2.1
      (by decide)⟩

/-- C10: because the caller's record is spread after the generated stamps,
every caller-supplied attribute — including a caller-supplied createdAt or
updatedAt — is written unchanged; the generated ISO stamps take effect only
for records lacking those attributes, and no attribute beyond the caller's
and the two stamps appears. -/
theorem C10_append_frame (iso1 iso2 : String) (data : Rec)
    (hnd : NodupKeys data) :
    (∀ (k : String) (v : Value), getA data k = some v →
        getA (addCreatedAt iso1 iso2 data) k = some v)
    ∧ (∀ k : String, k ≠ "createdAt" → k ≠ "updatedAt" → getA data k = none →
        getA (addCreatedAt iso1 iso2 data) k = none)
    ∧ (getA data "createdAt" = none →
        getA (addCreatedAt iso1 iso2 data) "createdAt" = some (Value.vStr iso1))
    ∧ (getA data "updatedAt" = none →
        getA (addCreatedAt iso1 iso2 data) "updatedAt" = some (Value.vStr iso2)) := by
  refine ⟨?_, ?_, ?_, ?_⟩
  · intro k v hv
    unfold addCreatedAt
    rw [getA_spreadInto_of_some _ _ _ _ hnd hv]
  · intro k h1 h2 hk
    unfold addCreatedAt
    rw [getA_spreadInto_of_none _ _ _ hk, getA_cons,
      if_neg (fun he => h1 he.symm), getA_cons,
      if_neg (fun he => h2 he.symm), getA_nil]
  · intro h
    unfold addCreatedAt
    rw [getA_spreadInto_of_none _ _ _ h]
    simp [getA_cons]
  · intro h
    unfold addCreatedAt
    rw [getA_spreadInto_of_none _ _ _ h]
    simp [getA_cons, getA_nil]

/-- Witness for C10: a caller-supplied numeric createdAt survives the
append-path stamping unchanged. -/
theorem C10_append_frame_witness :
    NodupKeys ([("createdAt", Value.vNum 5), ("name", Value.vStr "Ann")] : Rec)
    ∧ getA ([("createdAt", Value.vNum 5), ("name", Value.vStr "Ann")] : Rec)
        "createdAt" = some (Value.vNum 5)
    ∧ getA (addCreatedAt "X" "Y"
        [("createdAt", Value.vNum 5), ("name", Value.vStr "Ann")]) "createdAt" =
      some (Value.vNum 5) := by
  refine ⟨by decide, by decide,
    (C10_append_frame "X" "Y"
      [("createdAt", Value.vNum 5), ("name", Value.vStr "Ann")] (by decide)).1
      "createdAt" (Value.vNum 5) (by decide)⟩

end DynamoNinja
